import Mathlib

/-!
Shallow embedding of `scripts/generate_fund_list.py`.

The script reads a CSV file (UTF-8 with optional BOM, falling back to Big5),
skips two metadata lines, resolves two columns from the third (header) line,
extracts `(id, name)` pairs from the remaining data lines, and serializes the
accepted records to a pretty-printed JSON file.

The embedding models the Python standard-library behaviour the script relies
on: `str.strip`, `str.split(',')`, `list.index`, `file.readlines` (universal
newlines), `next(csv.reader([line]))` for a single chunk with the default
dialect, and `json.dump(..., ensure_ascii=False, indent=2)`.
-/

namespace FundList

/-- The set of characters Python's `str.strip()` removes (`str.isspace`),
restricted to the Unicode whitespace code points. -/
def pyIsSpace (c : Char) : Bool :=
  c = ' ' || c = '\t' || c = '\n' || c = '\x0b' || c = '\x0c' || c = '\r' ||
  (0x1c ≤ c.toNat && c.toNat ≤ 0x1f) ||
  c.toNat = 0x85 || c.toNat = 0xa0 || c.toNat = 0x1680 ||
  (0x2000 ≤ c.toNat && c.toNat ≤ 0x200a) ||
  c.toNat = 0x2028 || c.toNat = 0x2029 ||
  c.toNat = 0x202f || c.toNat = 0x205f || c.toNat = 0x3000

/-- Python `str.strip()` on a character list: drop whitespace from both ends. -/
def pyStripList (cs : List Char) : List Char :=
  ((cs.dropWhile pyIsSpace).reverse.dropWhile pyIsSpace).reverse

/-- Python `str.strip()`. -/
def pyStrip (s : String) : String :=
  String.mk (pyStripList s.data)

/-- Python `list.index` / leftmost position of an element
(`headers.index('基金碼')` in the script); `none` models `ValueError`. -/
def headerIndex (headers : List String) (name : String) : Option Nat :=
  headers.findIdx? (fun h => h == name)

/-- Helper for `pySplitComma`: current piece accumulated in reverse. -/
def splitCommaAux : List Char → List Char → List String
  | [], acc => [String.mk acc.reverse]
  | c :: cs, acc =>
    if c = ',' then String.mk acc.reverse :: splitCommaAux cs []
    else splitCommaAux cs (c :: acc)

/-- Python `str.split(',')`: split on every literal comma, with no awareness
of CSV quoting; `"".split(',') == ['']`. -/
def pySplitComma (s : String) : List String :=
  splitCommaAux s.data []

/-! ### `next(csv.reader([line]))`, default dialect

The script parses each data line with `csv.reader([line])` and takes the first
row.  For a single chunk the CPython reader processes every character of the
chunk and then an end-of-data marker; a record ends at an unquoted `'\n'`/`'\r'`
or at end of data.  `next` can fail on a one-element list in two ways, both
modelled by `Except.error ()`:

* a character other than `'\n'`/`'\r'` appears after the record has ended
  (`_csv.Error`: "new-line character seen in unquoted field"), and
* a field exceeds the field-size limit: `parse_add_char` raises `_csv.Error`
  ("field larger than field limit (131072)") when a character is added to a
  field that already holds `csv.field_size_limit()` = 131072 characters.
  The limit applies per field (quoted or not) and resets at each delimiter. -/

/-- `csv.field_size_limit()`: the default maximum number of characters in one
field; adding a character to a field already at this length raises. -/
def fieldSizeLimit : Nat := 131072

/-- Parser states of the CPython `_csv` reader needed for a single line
(default dialect: delimiter `','`, quote `'"'`, doublequote, non-strict). -/
inductive CsvState
  | startField
  | inField
  | inQuoted
  | quoteInQuoted

/-- After a record has ended, only end-of-line characters may remain in the
chunk (the reader's `EAT_CRNL` state); anything else is a `_csv.Error`. -/
def csvEatCrnl (cs : List Char) : Bool :=
  cs.all (fun c => c = '\n' || c = '\r')

/-- Character loop of the CPython `_csv` reader on the remainder of a single
chunk.  `field` is the current field (reversed), `fields` the completed fields.
At end of data the current field is saved and the record returned.  Every
character appended to the current field passes through `parse_add_char`,
which raises `_csv.Error` when the field is already at `fieldSizeLimit`
characters; each `c :: field` site below carries that guard. -/
def csvLoop : List Char → CsvState → List Char → List String → Except Unit (List String)
  | [], _, field, fields => .ok (fields ++ [String.mk field.reverse])
  | c :: cs, .startField, field, fields =>
    if c = '\n' || c = '\r' then
      if csvEatCrnl cs then .ok (fields ++ [String.mk field.reverse]) else .error ()
    else if c = '"' then csvLoop cs .inQuoted field fields
    else if c = ',' then csvLoop cs .startField [] (fields ++ [String.mk field.reverse])
    else if field.length ≥ fieldSizeLimit then .error ()
    else csvLoop cs .inField (c :: field) fields
  | c :: cs, .inField, field, fields =>
    if c = '\n' || c = '\r' then
      if csvEatCrnl cs then .ok (fields ++ [String.mk field.reverse]) else .error ()
    else if c = ',' then csvLoop cs .startField [] (fields ++ [String.mk field.reverse])
    else if field.length ≥ fieldSizeLimit then .error ()
    else csvLoop cs .inField (c :: field) fields
  | c :: cs, .inQuoted, field, fields =>
    if c = '"' then csvLoop cs .quoteInQuoted field fields
    else if field.length ≥ fieldSizeLimit then .error ()
    else csvLoop cs .inQuoted (c :: field) fields
  | c :: cs, .quoteInQuoted, field, fields =>
    if c = '"' then
      if field.length ≥ fieldSizeLimit then .error ()
      else csvLoop cs .inQuoted ('"' :: field) fields
    else if c = ',' then csvLoop cs .startField [] (fields ++ [String.mk field.reverse])
    else if c = '\n' || c = '\r' then
      if csvEatCrnl cs then .ok (fields ++ [String.mk field.reverse]) else .error ()
    else if field.length ≥ fieldSizeLimit then .error ()
    else csvLoop cs .inField (c :: field) fields

/-- `next(csv.reader([line]))`: the first (and only) row parsed from the single
chunk `line`.  A chunk that is empty or starts with an end-of-line character
yields the empty record `[]`; a field exceeding `fieldSizeLimit` characters or
a stray character after the record ends raises (`Except.error`). -/
def csvNext (line : String) : Except Unit (List String) :=
  match line.data with
  | [] => .ok []
  | c :: cs =>
    if c = '\n' || c = '\r' then
      if csvEatCrnl cs then .ok [] else .error ()
    else csvLoop (c :: cs) .startField [] []

/-! ### `file.readlines()` with universal newlines -/

/-- Universal-newline translation performed by Python text mode:
`"\r\n"` and `"\r"` both become `"\n"`. -/
def translateNewlines : List Char → List Char
  | [] => []
  | '\r' :: '\n' :: rest => '\n' :: translateNewlines rest
  | '\r' :: rest => '\n' :: translateNewlines rest
  | c :: rest => c :: translateNewlines rest

/-- Split a character stream into lines, each keeping its terminating `'\n'`;
a final fragment without a newline is kept if non-empty. -/
def splitLinesKeepEnds : List Char → List Char → List (List Char)
  | [], acc => if acc = [] then [] else [acc.reverse]
  | c :: rest, acc =>
    if c = '\n' then (acc.reverse ++ ['\n']) :: splitLinesKeepEnds rest []
    else splitLinesKeepEnds rest (c :: acc)

/-- Python `f.readlines()` on the decoded file content (text mode). -/
def pyReadLines (content : String) : List String :=
  (splitLinesKeepEnds (translateNewlines content.data) []).map String.mk

/-! ### The extractor -/

/-- One extracted fund: `{'id': ..., 'name': ...}`. -/
structure FundRecord where
  id : String
  name : String
deriving Repr, DecidableEq

/-- The literal header text of the fund-code column. -/
def requiredIdHeader : String := "基金碼"

/-- The literal header text of the fund-full-name column. -/
def requiredNameHeader : String := "基金全稱"

/-- Observable outcome of `generate_fund_list` on the in-memory lines. -/
inductive GenResult
  /-- `next(csv.reader([line]))` raised `_csv.Error`; the exception propagates
  and nothing is written (unreachable for lines produced by `readlines`). -/
  | fatalCsv
  /-- `len(lines) < 3`: "Error: CSV file is too short.", early return. -/
  | earlyTooShort
  /-- A required header is missing: the available headers are reported and the
  function returns early. -/
  | earlyNoHeader (available : List String)
  /-- The accepted records, in input order, written to the JSON file. -/
  | written (funds : List FundRecord)
deriving Repr, DecidableEq

/-- The data-line loop of `generate_fund_list`: for each line take the first
CSV row; if it has enough fields to cover both column indices, strip both
values and keep the record when both are non-empty. -/
def processLines (id_index name_index : Nat) : List String → Except Unit (List FundRecord)
  | [] => .ok []
  | line :: rest =>
    match csvNext line with
    | .error e => .error e
    | .ok row =>
      match processLines id_index name_index rest with
      | .error e => .error e
      | .ok tail =>
        if row.length > max id_index name_index then
          let fund_id := pyStrip (row.getD id_index "")
          let fund_name := pyStrip (row.getD name_index "")
          if fund_id ≠ "" ∧ fund_name ≠ "" then
            .ok ({ id := fund_id, name := fund_name } :: tail)
          else .ok tail
        else .ok tail

/-- `generate_fund_list` on the list of lines obtained from `readlines`:
skip two metadata lines, resolve both required columns from the stripped
third line split on commas, then process the data lines. -/
def generate_fund_list (lines : List String) : GenResult :=
  if lines.length < 3 then .earlyTooShort
  else
    let header_line := pyStrip (lines.getD 2 "")
    let headers := pySplitComma header_line
    match headerIndex headers requiredIdHeader, headerIndex headers requiredNameHeader with
    | some id_index, some name_index =>
      match processLines id_index name_index (lines.drop 3) with
      | .ok funds => .written funds
      | .error _ => .fatalCsv
    | _, _ => .earlyNoHeader headers

/-! ### `json.dump(funds, f, ensure_ascii=False, indent=2)` -/

/-- Lower-case hexadecimal digit. -/
def hexDigitChar (n : Nat) : Char :=
  if n < 10 then Char.ofNat ('0'.toNat + n) else Char.ofNat ('a'.toNat + n - 10)

/-- JSON string escaping as performed by `json.dump` with
`ensure_ascii=False`: escape `'"'`, `'\\'` and control characters (named
escapes for `\b \t \n \f \r`, `\u00xx` otherwise); everything else, including
non-ASCII characters, is emitted literally. -/
def jsonEscapeChar (c : Char) : List Char :=
  if c = '"' then ['\\', '"']
  else if c = '\\' then ['\\', '\\']
  else if c = '\n' then ['\\', 'n']
  else if c = '\t' then ['\\', 't']
  else if c = '\r' then ['\\', 'r']
  else if c = '\x08' then ['\\', 'b']
  else if c = '\x0c' then ['\\', 'f']
  else if c.toNat < 0x20 then
    ['\\', 'u', '0', '0', hexDigitChar (c.toNat / 16), hexDigitChar (c.toNat % 16)]
  else [c]

/-- Escape every character of a string for a JSON string literal. -/
def jsonEscapeList : List Char → List Char
  | [] => []
  | c :: cs => jsonEscapeChar c ++ jsonEscapeList cs

/-- One serialized record, exactly as `json.dump` renders a dict
`{'id': ..., 'name': ...}` nested at depth 1 with `indent=2`. -/
def serializeFund (f : FundRecord) : String :=
  "\x7b\n    \"id\": \"" ++ String.mk (jsonEscapeList f.id.data) ++
  "\",\n    \"name\": \"" ++ String.mk (jsonEscapeList f.name.data) ++ "\"\n  \x7d"

/-- The `",\n  ".join(...)` step of rendering the array items at `indent=2`. -/
def joinFunds : List FundRecord → String
  | [] => ""
  | [f] => serializeFund f
  | f :: g :: fs => serializeFund f ++ ",\n  " ++ joinFunds (g :: fs)

/-- The full output of `json.dump(funds, f, ensure_ascii=False, indent=2)`. -/
def serializeFunds (funds : List FundRecord) : String :=
  match funds with
  | [] => "[]"
  | _ :: _ => "[\n  " ++ joinFunds funds ++ "\n]"

/-! ### Filesystem effects: `os.makedirs(..., exist_ok=True)` and
`open(JSON_PATH, 'w')` -/

/-- The parts of the filesystem the script writes: whether the output
directory exists, and the output file's content (`none` = absent). -/
structure FileSystem where
  outDirExists : Bool
  outFileContent : Option String
deriving Repr, DecidableEq

/-- Writing the JSON output: the directory is created if absent and the file
is opened with mode `'w'`, truncating whatever was there before. -/
def writeJson (_fs : FileSystem) (funds : List FundRecord) : FileSystem :=
  { outDirExists := true, outFileContent := some (serializeFunds funds) }

/-- One run of the script body on the in-memory lines: only the successful
path writes; the early returns and a propagating `_csv.Error` leave the
filesystem untouched. -/
def runOnce (fs : FileSystem) (lines : List String) : FileSystem :=
  match generate_fund_list lines with
  | .written funds => writeJson fs funds
  | _ => fs

/-! ### Decoding: `utf-8-sig`, falling back to Big5

The codecs themselves live in the Python runtime, so they enter the model as
parameters; the `utf-8-sig` wrapper (strip one UTF-8 byte-order mark, then
decode as UTF-8) is explicit. -/

/-- The `utf-8-sig` codec: strip one leading UTF-8 BOM (`EF BB BF`) if
present, then decode as plain UTF-8. -/
def utf8SigDecode (utf8Decode : List Nat → Option String) : List Nat → Option String
  | 0xEF :: 0xBB :: 0xBF :: rest => utf8Decode rest
  | bytes => utf8Decode bytes

/-- The whole script on the raw file bytes: try `utf-8-sig`; on a decode
failure fall back to `big5`; if that fails too the `UnicodeDecodeError`
propagates unhandled (`none`) and nothing is written. -/
def runOnBytes (utf8Decode big5Decode : List Nat → Option String)
    (fs : FileSystem) (bytes : List Nat) : Option FileSystem :=
  match utf8SigDecode utf8Decode bytes with
  | some content => some (runOnce fs (pyReadLines content))
  | none =>
    match big5Decode bytes with
    | some content => some (runOnce fs (pyReadLines content))
    | none => none

/-! ### A JSON reader for the produced output

To state the round-trip property the development includes a small
recursive-descent reader for the fragment of JSON the script can emit: an
array of flat objects with the two string members `id` and `name`.  Strings
support the full JSON escape repertoire, and insignificant whitespace is
skipped, so the reader accepts the pretty-printed output the way any JSON
parser would. -/

/-- Skip insignificant JSON whitespace. -/
def skipSpaces : List Char → List Char
  | [] => []
  | c :: cs =>
    if c = ' ' || c = '\t' || c = '\n' || c = '\r' then skipSpaces cs else c :: cs

/-- Expect the next non-whitespace character to be `c`. -/
def expectChar (c : Char) (cs : List Char) : Option (List Char) :=
  match skipSpaces cs with
  | d :: rest => if d = c then some rest else none
  | [] => none

/-- Value of one hexadecimal digit. -/
def hexVal (c : Char) : Option Nat :=
  if '0' ≤ c ∧ c ≤ '9' then some (c.toNat - '0'.toNat)
  else if 'a' ≤ c ∧ c ≤ 'f' then some (c.toNat - 'a'.toNat + 10)
  else if 'A' ≤ c ∧ c ≤ 'F' then some (c.toNat - 'A'.toNat + 10)
  else none

/-- Read the body of a JSON string literal after its opening quote, decoding
escape sequences; returns the decoded string and the characters after the
closing quote. -/
def parseStringBody : List Char → List Char → Option (String × List Char)
  | [], _ => none
  | c :: cs, acc =>
    if c = '"' then some (String.mk acc.reverse, cs)
    else if c = '\\' then
      match cs with
      | [] => none
      | e :: cs2 =>
        if e = '"' then parseStringBody cs2 ('"' :: acc)
        else if e = '\\' then parseStringBody cs2 ('\\' :: acc)
        else if e = '/' then parseStringBody cs2 ('/' :: acc)
        else if e = 'n' then parseStringBody cs2 ('\n' :: acc)
        else if e = 't' then parseStringBody cs2 ('\t' :: acc)
        else if e = 'r' then parseStringBody cs2 ('\r' :: acc)
        else if e = 'b' then parseStringBody cs2 ('\x08' :: acc)
        else if e = 'f' then parseStringBody cs2 ('\x0c' :: acc)
        else if e = 'u' then
          match cs2 with
          | h1 :: h2 :: h3 :: h4 :: cs3 =>
            match hexVal h1, hexVal h2, hexVal h3, hexVal h4 with
            | some v1, some v2, some v3, some v4 =>
              parseStringBody cs3 (Char.ofNat (((v1 * 16 + v2) * 16 + v3) * 16 + v4) :: acc)
            | _, _, _, _ => none
          | _ => none
        else none
    else parseStringBody cs (c :: acc)

/-- Read a JSON string literal (after optional whitespace). -/
def parseString (cs : List Char) : Option (String × List Char) :=
  match skipSpaces cs with
  | '"' :: rest => parseStringBody rest []
  | _ => none

/-- Read the second member (`"name": ...`) and the closing brace of one
record object, the first member's value being `v1`. -/
def parseFundAfterV1 (v1 : String) (cs : List Char) : Option (FundRecord × List Char) :=
  match expectChar ',' cs with
  | none => none
  | some cs1 =>
    match parseString cs1 with
    | some (k2, cs2) =>
      if k2 = "name" then
        match expectChar ':' cs2 with
        | none => none
        | some cs3 =>
          match parseString cs3 with
          | some (v2, cs4) =>
            match expectChar '\x7d' cs4 with
            | some cs5 => some ({ id := v1, name := v2 }, cs5)
            | none => none
          | none => none
      else none
    | none => none

/-- Read one record object `{"id": ..., "name": ...}`. -/
def parseFundObj (cs : List Char) : Option (FundRecord × List Char) :=
  match expectChar '\x7b' cs with
  | none => none
  | some cs1 =>
    match parseString cs1 with
    | some (k1, cs2) =>
      if k1 = "id" then
        match expectChar ':' cs2 with
        | none => none
        | some cs3 =>
          match parseString cs3 with
          | some (v1, cs4) => parseFundAfterV1 v1 cs4
          | none => none
      else none
    | none => none

/-- Read the remaining record objects of a non-empty array, accumulating in
reverse; `fuel` bounds the number of objects (the caller passes the input
length, which always suffices). -/
def parseFundsLoop : Nat → List Char → List FundRecord → Option (List FundRecord)
  | 0, _, _ => none
  | fuel + 1, cs, acc =>
    match parseFundObj cs with
    | none => none
    | some (f, rest) =>
      match skipSpaces rest with
      | ']' :: rest2 => if skipSpaces rest2 = [] then some ((f :: acc).reverse) else none
      | ',' :: rest2 => parseFundsLoop fuel rest2 (f :: acc)
      | _ => none

/-- Read a whole JSON document as produced by the script: an array of record
objects (possibly empty), and nothing but whitespace after it. -/
def parseFunds (s : String) : Option (List FundRecord) :=
  match expectChar '[' s.data with
  | none => none
  | some cs =>
    match skipSpaces cs with
    | ']' :: rest => if skipSpaces rest = [] then some [] else none
    | _ => parseFundsLoop (s.data.length + 1) cs []

/-! ### Inputs exceeding the csv field-size limit

Concrete inputs whose single data line holds one field of
`fieldSizeLimit + 1` characters; on them `next(csv.reader([line]))` raises
`_csv.Error` and the script aborts with nothing written. -/

/-- One field of `fieldSizeLimit + 1` characters, one more than
`csv.field_size_limit()` allows. -/
def bigFieldChars : List Char := List.replicate (fieldSizeLimit + 1) 'x'

/-- A `readlines`-shaped line holding that oversized field. -/
def bigLine : String := String.mk (bigFieldChars ++ ['\n'])

/-- Two metadata lines, a resolvable header line, then the oversized line. -/
def bigContentA : String :=
  String.mk ("m\nm\n基金碼,基金全稱\n".data ++ (bigFieldChars ++ ['\n']))

/-- Two metadata lines, a resolvable header line, two accepted duplicate data
rows, then the oversized line. -/
def bigContentB : String :=
  String.mk ("m\nm\n基金碼,基金全稱\nA,N\nA,N\n".data ++ (bigFieldChars ++ ['\n']))

/-! ### Round-trip lemmas: the reader inverts the serializer -/

lemma hexVal_hexDigitChar : ∀ n < 16, hexVal (hexDigitChar n) = some n := by decide

lemma psb_quote (cs acc) : parseStringBody ('"' :: cs) acc = some (String.mk acc.reverse, cs) := by
  rw [parseStringBody.eq_def]; simp

lemma psb_lit (c cs acc) (h1 : ¬c = '"') (h2 : ¬c = '\\') :
    parseStringBody (c :: cs) acc = parseStringBody cs (c :: acc) := by
  conv_lhs => rw [parseStringBody.eq_def]
  simp [h1, h2]

lemma psb_esc_quote (cs acc) : parseStringBody ('\\' :: '"' :: cs) acc = parseStringBody cs ('"' :: acc) := by
  conv_lhs => rw [parseStringBody.eq_def]
  simp

lemma psb_esc_bslash (cs acc) : parseStringBody ('\\' :: '\\' :: cs) acc = parseStringBody cs ('\\' :: acc) := by
  conv_lhs => rw [parseStringBody.eq_def]
  simp

lemma psb_esc_n (cs acc) : parseStringBody ('\\' :: 'n' :: cs) acc = parseStringBody cs ('\n' :: acc) := by
  conv_lhs => rw [parseStringBody.eq_def]
  simp

lemma psb_esc_t (cs acc) : parseStringBody ('\\' :: 't' :: cs) acc = parseStringBody cs ('\t' :: acc) := by
  conv_lhs => rw [parseStringBody.eq_def]
  simp

lemma psb_esc_r (cs acc) : parseStringBody ('\\' :: 'r' :: cs) acc = parseStringBody cs ('\r' :: acc) := by
  conv_lhs => rw [parseStringBody.eq_def]
  simp

lemma psb_esc_b (cs acc) : parseStringBody ('\\' :: 'b' :: cs) acc = parseStringBody cs ('\x08' :: acc) := by
  conv_lhs => rw [parseStringBody.eq_def]
  simp

lemma psb_esc_f (cs acc) : parseStringBody ('\\' :: 'f' :: cs) acc = parseStringBody cs ('\x0c' :: acc) := by
  conv_lhs => rw [parseStringBody.eq_def]
  simp

lemma psb_unicode (n : Nat) (h : n < 32) (cs acc) :
    parseStringBody ('\\' :: 'u' :: '0' :: '0' :: hexDigitChar (n / 16) :: hexDigitChar (n % 16) :: cs) acc
      = parseStringBody cs (Char.ofNat n :: acc) := by
  interval_cases n <;> (conv_lhs => rw [parseStringBody.eq_def]) <;> simp [hexVal, hexDigitChar]

lemma parseStringBody_escape (rest : List Char) :
    ∀ (s acc : List Char),
      parseStringBody (jsonEscapeList s ++ '"' :: rest) acc
        = some (String.mk (acc.reverse ++ s), rest) := by
  intro s
  induction s with
  | nil => intro acc; simp [jsonEscapeList, psb_quote]
  | cons c s ih =>
    intro acc
    by_cases h1 : c = '"'
    · subst h1
      have hc : jsonEscapeChar '"' = ['\\', '"'] := rfl
      simp only [jsonEscapeList, hc, List.cons_append, List.nil_append]
      rw [psb_esc_quote, ih]
      simp
    · by_cases h2 : c = '\\'
      · subst h2
        have hc : jsonEscapeChar '\\' = ['\\', '\\'] := rfl
        simp only [jsonEscapeList, hc, List.cons_append, List.nil_append]
        rw [psb_esc_bslash, ih]
        simp
      · by_cases h3 : c = '\n'
        · subst h3
          have hc : jsonEscapeChar '\n' = ['\\', 'n'] := rfl
          simp only [jsonEscapeList, hc, List.cons_append, List.nil_append]
          rw [psb_esc_n, ih]
          simp
        · by_cases h4 : c = '\t'
          · subst h4
            have hc : jsonEscapeChar '\t' = ['\\', 't'] := rfl
            simp only [jsonEscapeList, hc, List.cons_append, List.nil_append]
            rw [psb_esc_t, ih]
            simp
          · by_cases h5 : c = '\r'
            · subst h5
              have hc : jsonEscapeChar '\r' = ['\\', 'r'] := rfl
              simp only [jsonEscapeList, hc, List.cons_append, List.nil_append]
              rw [psb_esc_r, ih]
              simp
            · by_cases h6 : c = '\x08'
              · subst h6
                have hc : jsonEscapeChar '\x08' = ['\\', 'b'] := rfl
                simp only [jsonEscapeList, hc, List.cons_append, List.nil_append]
                rw [psb_esc_b, ih]
                simp
              · by_cases h7 : c = '\x0c'
                · subst h7
                  have hc : jsonEscapeChar '\x0c' = ['\\', 'f'] := rfl
                  simp only [jsonEscapeList, hc, List.cons_append, List.nil_append]
                  rw [psb_esc_f, ih]
                  simp
                · by_cases h8 : c.toNat < 0x20
                  · have hc : jsonEscapeChar c
                        = ['\\', 'u', '0', '0', hexDigitChar (c.toNat / 16), hexDigitChar (c.toNat % 16)] := by
                      simp [jsonEscapeChar, h1, h2, h3, h4, h5, h6, h7, h8]
                    simp only [jsonEscapeList, hc, List.cons_append, List.nil_append]
                    rw [psb_unicode c.toNat h8, Char.ofNat_toNat, ih]
                    simp
                  · have hc : jsonEscapeChar c = [c] := by
                      simp [jsonEscapeChar, h1, h2, h3, h4, h5, h6, h7, h8]
                    simp only [jsonEscapeList, hc, List.cons_append, List.nil_append]
                    rw [psb_lit c _ _ h1 h2, ih]
                    simp

lemma ss_drop (c cs) (h : (c = ' ' || c = '\t' || c = '\n' || c = '\r') = true) :
    skipSpaces (c :: cs) = skipSpaces cs := by
  rw [skipSpaces.eq_def]; simp [h]

lemma ss_keep (c cs) (h : (c = ' ' || c = '\t' || c = '\n' || c = '\r') = false) :
    skipSpaces (c :: cs) = c :: cs := by
  rw [skipSpaces.eq_def]; simp at h; simp [h]

lemma serializeFund_data (f : FundRecord) :
    (serializeFund f).data
      = '\x7b' :: '\n' :: ' ' :: ' ' :: ' ' :: ' ' :: '"' :: 'i' :: 'd' :: '"' :: ':' :: ' ' :: '"' ::
        (jsonEscapeList f.id.data ++ ('"' :: ',' :: '\n' :: ' ' :: ' ' :: ' ' :: ' ' :: '"' :: 'n' :: 'a' :: 'm' :: 'e' :: '"' :: ':' :: ' ' :: '"' ::
          (jsonEscapeList f.name.data ++ ('"' :: '\n' :: ' ' :: ' ' :: '\x7d' :: [])))) := by
  simp only [serializeFund, String.data_append, List.append_assoc]
  rfl

lemma parseString_at_quote (s rest) :
    parseString ('"' :: (jsonEscapeList s ++ '"' :: rest)) = some (String.mk s, rest) := by
  rw [parseString]
  rw [ss_keep _ _ (by decide)]
  simp [parseStringBody_escape]

lemma mk_data (s : String) : String.mk s.data = s := rfl

lemma expectChar_here (c cs) (h : (c = ' ' || c = '\t' || c = '\n' || c = '\r') = false) :
    expectChar c (c :: cs) = some cs := by
  rw [expectChar, ss_keep _ _ h]
  simp

lemma expectChar_ws (w c cs) (hw : (w = ' ' || w = '\t' || w = '\n' || w = '\r') = true) :
    expectChar c (w :: cs) = expectChar c cs := by
  rw [expectChar, expectChar, ss_drop _ _ hw]

lemma parseString_ws (w cs) (hw : (w = ' ' || w = '\t' || w = '\n' || w = '\r') = true) :
    parseString (w :: cs) = parseString cs := by
  rw [parseString, parseString, ss_drop _ _ hw]

lemma parseString_id (cs) : parseString ('"' :: 'i' :: 'd' :: '"' :: cs) = some ("id", cs) := by
  rw [parseString, ss_keep _ _ (by decide)]
  simp [psb_lit, psb_quote]

lemma parseString_name (cs) : parseString ('"' :: 'n' :: 'a' :: 'm' :: 'e' :: '"' :: cs) = some ("name", cs) := by
  rw [parseString, ss_keep _ _ (by decide)]
  simp [psb_lit, psb_quote]

lemma parseFundObj_serializeFund (f : FundRecord) (rest : List Char) :
    parseFundObj ((serializeFund f).data ++ rest) = some (f, rest) := by
  obtain ⟨i, n⟩ := f
  rw [serializeFund_data]
  simp only [List.cons_append, List.append_assoc, List.nil_append]
  simp [parseFundObj, parseFundAfterV1, expectChar_here, expectChar_ws, parseString_ws,
    parseString_id, parseString_name, parseString_at_quote, mk_data]

lemma joinFunds_cons_data (f g : FundRecord) (fs : List FundRecord) :
    (joinFunds (f :: g :: fs)).data
      = (serializeFund f).data ++ (',' :: '\n' :: ' ' :: ' ' :: (joinFunds (g :: fs)).data) := by
  rw [joinFunds]
  simp only [String.data_append, List.append_assoc]
  rfl

lemma parseFundObj_ws (w cs) (hw : (w = ' ' || w = '\t' || w = '\n' || w = '\r') = true) :
    parseFundObj (w :: cs) = parseFundObj cs := by
  simp only [parseFundObj, expectChar_ws _ _ _ hw]

lemma parseFundsLoop_join :
    ∀ (fs : List FundRecord) (f : FundRecord) (fuel : Nat) (acc : List FundRecord),
      fs.length ≤ fuel →
      parseFundsLoop (fuel + 1)
          ('\n' :: ' ' :: ' ' :: ((joinFunds (f :: fs)).data ++ '\n' :: ']' :: []))
          acc
        = some (acc.reverse ++ (f :: fs)) := by
  intro fs
  induction fs with
  | nil =>
    intro f fuel acc _
    rw [parseFundsLoop]
    rw [parseFundObj_ws _ _ (by decide), parseFundObj_ws _ _ (by decide),
      parseFundObj_ws _ _ (by decide)]
    rw [show joinFunds [f] = serializeFund f from rfl]
    rw [parseFundObj_serializeFund]
    simp [ss_drop, ss_keep, skipSpaces]
  | cons g fs ih =>
    intro f fuel acc hfuel
    obtain ⟨fuel', rfl⟩ : ∃ k, fuel = k + 1 := ⟨fuel - 1, by simp at hfuel; omega⟩
    rw [parseFundsLoop]
    rw [parseFundObj_ws _ _ (by decide), parseFundObj_ws _ _ (by decide),
      parseFundObj_ws _ _ (by decide)]
    rw [joinFunds_cons_data, List.append_assoc]
    rw [parseFundObj_serializeFund]
    have hss : ∀ cs, skipSpaces (',' :: cs) = ',' :: cs := fun cs => ss_keep _ _ (by decide)
    simp only [List.cons_append, List.append_assoc, hss]
    rw [ih g fuel' (f :: acc) (by simp at hfuel ⊢; omega)]
    simp

lemma serializeFunds_cons_data (f : FundRecord) (fs : List FundRecord) :
    (serializeFunds (f :: fs)).data
      = '[' :: '\n' :: ' ' :: ' ' :: ((joinFunds (f :: fs)).data ++ '\n' :: ']' :: []) := by
  show ("[\n  " ++ joinFunds (f :: fs) ++ "\n]").data = _
  simp only [String.data_append, List.append_assoc]
  rfl

lemma joinFunds_head (f : FundRecord) (fs : List FundRecord) :
    ∃ t, (joinFunds (f :: fs)).data = '\x7b' :: t := by
  cases fs with
  | nil => exact ⟨_, by rw [show joinFunds [f] = serializeFund f from rfl, serializeFund_data]⟩
  | cons g fs =>
    rw [joinFunds_cons_data, serializeFund_data]
    simp only [List.cons_append]
    exact ⟨_, rfl⟩

lemma joinFunds_length (fs : List FundRecord) : ∀ f, fs.length + 1 ≤ (joinFunds (f :: fs)).data.length := by
  induction fs with
  | nil =>
    intro f
    rw [show joinFunds [f] = serializeFund f from rfl, serializeFund_data]
    simp
  | cons g fs ih =>
    intro f
    rw [joinFunds_cons_data]
    have := ih g
    simp at this ⊢
    omega

lemma parseFunds_serializeFunds (funds : List FundRecord) :
    parseFunds (serializeFunds funds) = some funds := by
  cases funds with
  | nil =>
    have hd : ("[]" : String).data = ['[', ']'] := rfl
    rw [show serializeFunds [] = "[]" from rfl]
    simp [parseFunds, hd, expectChar_here, ss_keep, skipSpaces]
  | cons f fs =>
    rw [parseFunds]
    rw [serializeFunds_cons_data]
    rw [expectChar_here _ _ (by decide)]
    obtain ⟨t, ht⟩ := joinFunds_head f fs
    have hlen : fs.length ≤ ('[' :: '\n' :: ' ' :: ' ' :: ((joinFunds (f :: fs)).data ++ '\n' :: ']' :: [])).length := by
      have := joinFunds_length fs f
      simp at this ⊢
      omega
    have h1 : ∀ X, skipSpaces ('\n' :: ' ' :: ' ' :: X) = skipSpaces X := by
      intro X
      rw [ss_drop _ _ (by decide), ss_drop _ _ (by decide), ss_drop _ _ (by decide)]
    have h2 : skipSpaces ((joinFunds (f :: fs)).data ++ '\n' :: ']' :: [])
        = '\x7b' :: (t ++ '\n' :: ']' :: []) := by
      rw [ht]
      simp only [List.cons_append]
      exact ss_keep _ _ (by decide)
    simp only [h1]
    simp only [h2]
    rw [parseFundsLoop_join fs f _ [] hlen]
    simp

/-! ### Well-formed lines: `readlines` output never triggers a CSV error -/


def wfLineChars : List Char → Bool
  | [] => true
  | c :: cs => if c = '\n' then cs.isEmpty else if c = '\r' then false else wfLineChars cs

lemma csvLoop_ok : ∀ (cs : List Char) (st : CsvState) (field : List Char) (fields : List String),
    wfLineChars cs = true → field.length + cs.length ≤ fieldSizeLimit →
    ∃ row, csvLoop cs st field fields = .ok row := by
  intro cs
  induction cs with
  | nil =>
    intro st field fields _ _
    cases st <;> simp [csvLoop]
  | cons c cs ih =>
    intro st field fields hwf hsz
    have hlc : (c :: cs).length = cs.length + 1 := rfl
    have hg : ¬ field.length ≥ fieldSizeLimit := by omega
    by_cases hn : c = '\n'
    · subst hn
      have hcs : cs = [] := by
        simp [wfLineChars] at hwf
        simpa [List.isEmpty_iff] using hwf
      subst hcs
      cases st <;> simp [csvLoop, csvEatCrnl, hg]
    · by_cases hr : c = '\r'
      · subst hr
        simp [wfLineChars] at hwf
      · have hwf' : wfLineChars cs = true := by
          simpa [wfLineChars, hn, hr] using hwf
        cases st with
        | startField =>
          by_cases hq : c = '"'
          · subst hq
            obtain ⟨row, hrow⟩ := ih .inQuoted field fields hwf' (by omega)
            exact ⟨row, by simp [csvLoop, hrow]⟩
          · by_cases hcm : c = ','
            · subst hcm
              obtain ⟨row, hrow⟩ := ih .startField [] (fields ++ [String.mk field.reverse]) hwf'
                (by simp; omega)
              exact ⟨row, by simp [csvLoop, hn, hr, hrow]⟩
            · obtain ⟨row, hrow⟩ := ih .inField (c :: field) fields hwf' (by simp; omega)
              exact ⟨row, by simp [csvLoop, hn, hr, hq, hcm, hg, hrow]⟩
        | inField =>
          by_cases hcm : c = ','
          · subst hcm
            obtain ⟨row, hrow⟩ := ih .startField [] (fields ++ [String.mk field.reverse]) hwf'
              (by simp; omega)
            exact ⟨row, by simp [csvLoop, hn, hr, hrow]⟩
          · obtain ⟨row, hrow⟩ := ih .inField (c :: field) fields hwf' (by simp; omega)
            exact ⟨row, by simp [csvLoop, hn, hr, hcm, hg, hrow]⟩
        | inQuoted =>
          by_cases hq : c = '"'
          · subst hq
            obtain ⟨row, hrow⟩ := ih .quoteInQuoted field fields hwf' (by omega)
            exact ⟨row, by simp [csvLoop, hrow]⟩
          · obtain ⟨row, hrow⟩ := ih .inQuoted (c :: field) fields hwf' (by simp; omega)
            exact ⟨row, by simp [csvLoop, hq, hg, hrow]⟩
        | quoteInQuoted =>
          by_cases hq : c = '"'
          · subst hq
            obtain ⟨row, hrow⟩ := ih .inQuoted ('"' :: field) fields hwf' (by simp; omega)
            exact ⟨row, by simp [csvLoop, hg, hrow]⟩
          · by_cases hcm : c = ','
            · subst hcm
              obtain ⟨row, hrow⟩ := ih .startField [] (fields ++ [String.mk field.reverse]) hwf'
                (by simp; omega)
              exact ⟨row, by simp [csvLoop, hrow]⟩
            · obtain ⟨row, hrow⟩ := ih .inField (c :: field) fields hwf' (by simp; omega)
              exact ⟨row, by simp [csvLoop, hn, hr, hq, hcm, hg, hrow]⟩

lemma csvNext_ok (line : String) (h : wfLineChars line.data = true)
    (hsz : line.data.length ≤ fieldSizeLimit) :
    ∃ row, csvNext line = .ok row := by
  rw [csvNext.eq_def]
  cases hld : line.data with
  | nil => exact ⟨[], rfl⟩
  | cons c cs =>
    rw [hld] at h hsz
    by_cases hn : c = '\n'
    · subst hn
      have hcs : cs = [] := by
        simp [wfLineChars] at h
        simpa [List.isEmpty_iff] using h
      subst hcs
      exact ⟨[], by simp [csvEatCrnl]⟩
    · by_cases hr : c = '\r'
      · subst hr
        simp [wfLineChars] at h
      · obtain ⟨row, hrow⟩ := csvLoop_ok (c :: cs) .startField [] [] h (by simpa using hsz)
        exact ⟨row, by simp [hn, hr, hrow]⟩

/-- Acceptance of one data line, as the specification words it: the first CSV
row must have enough fields to cover both resolved indices and both stripped
values must be non-empty. -/
def specAcceptRow (id_index name_index : Nat) (line : String) : Option FundRecord :=
  match csvNext line with
  | .error _ => none
  | .ok row =>
    if row.length > max id_index name_index then
      let fund_id := pyStrip (row.getD id_index "")
      let fund_name := pyStrip (row.getD name_index "")
      if fund_id ≠ "" ∧ fund_name ≠ "" then some { id := fund_id, name := fund_name }
      else none
    else none

lemma processLines_eq_filterMap (i j : Nat) :
    ∀ lines : List String, (∀ l ∈ lines, ∃ row, csvNext l = .ok row) →
      processLines i j lines = .ok (lines.filterMap (specAcceptRow i j)) := by
  intro lines
  induction lines with
  | nil => intro _; simp [processLines]
  | cons line rest ih =>
    intro h
    obtain ⟨row, hrow⟩ := h line (by simp)
    have ih' := ih (fun l hl => h l (by simp [hl]))
    by_cases h1 : row.length > max i j
    · by_cases h2 : pyStrip (row.getD i "") ≠ "" ∧ pyStrip (row.getD j "") ≠ ""
      · simp only [processLines, hrow, ih', List.filterMap_cons, specAcceptRow,
          if_pos h1, if_pos h2]
      · simp only [processLines, hrow, ih', List.filterMap_cons, specAcceptRow,
          if_pos h1, if_neg h2]
    · simp only [processLines, hrow, ih', List.filterMap_cons, specAcceptRow, if_neg h1]

lemma wf_of_no_nlcr : ∀ l : List Char, (∀ c ∈ l, c ≠ '\n' ∧ c ≠ '\r') → wfLineChars l = true := by
  intro l
  induction l with
  | nil => intro _; simp [wfLineChars]
  | cons c cs ih =>
    intro h
    have hc := h c (by simp)
    simp [wfLineChars, hc.1, hc.2]
    exact ih (fun d hd => h d (by simp [hd]))

lemma wf_append_nl (l : List Char) (h : ∀ c ∈ l, c ≠ '\n' ∧ c ≠ '\r') :
    wfLineChars (l ++ ['\n']) = true := by
  induction l with
  | nil => simp [wfLineChars]
  | cons c cs ih =>
    have hc := h c (by simp)
    simp only [List.cons_append, wfLineChars, if_neg hc.1, if_neg hc.2]
    exact ih (fun d hd => h d (by simp [hd]))

lemma splitLines_wf :
    ∀ (cs acc : List Char), (∀ c ∈ cs, c ≠ '\r') → (∀ c ∈ acc, c ≠ '\n' ∧ c ≠ '\r') →
      ∀ l ∈ splitLinesKeepEnds cs acc, wfLineChars l = true := by
  intro cs
  induction cs with
  | nil =>
    intro acc _ hacc l hl
    simp [splitLinesKeepEnds] at hl
    rcases hl with ⟨-, rfl⟩
    exact wf_of_no_nlcr _ (by intro c hc; exact hacc c (by simpa using hc))
  | cons c cs ih =>
    intro acc hcs hacc l hl
    by_cases hn : c = '\n'
    · subst hn
      rw [splitLinesKeepEnds, if_pos rfl] at hl
      rcases List.mem_cons.mp hl with rfl | hl'
      · exact wf_append_nl _ (by intro d hd; exact hacc d (by simpa using hd))
      · exact ih [] (fun d hd => hcs d (by simp [hd])) (by simp) l hl'
    · rw [splitLinesKeepEnds, if_neg hn] at hl
      refine ih (c :: acc) (fun d hd => hcs d (by simp [hd])) ?_ l hl
      intro d hd
      rcases List.mem_cons.mp hd with rfl | hd'
      · exact ⟨hn, hcs d (by simp)⟩
      · exact hacc d hd'

lemma translate_no_cr : ∀ cs : List Char, ∀ c ∈ translateNewlines cs, c ≠ '\r' := by
  intro cs
  induction cs using translateNewlines.induct with
  | case1 => simp [translateNewlines]
  | case2 rest ih =>
    intro c hc
    rw [translateNewlines.eq_2] at hc
    rcases List.mem_cons.mp hc with rfl | hc'
    · decide
    · exact ih c hc'
  | case3 rest hne ih =>
    intro c hc
    rw [translateNewlines.eq_3 rest hne] at hc
    rcases List.mem_cons.mp hc with rfl | hc'
    · decide
    · exact ih c hc'
  | case4 c0 rest h1 h2 ih =>
    intro c hc
    rw [translateNewlines.eq_4 c0 rest h1 h2] at hc
    rcases List.mem_cons.mp hc with rfl | hc'
    · exact fun h => h2 h
    · exact ih c hc'

lemma pyReadLines_wf (content : String) : ∀ l ∈ pyReadLines content, wfLineChars l.data = true := by
  intro l hl
  rw [pyReadLines] at hl
  obtain ⟨lc, hlc, rfl⟩ := List.mem_map.mp hl
  exact splitLines_wf (translateNewlines content.data) [] (translate_no_cr content.data)
    (by simp) lc hlc

/-! ### Characterization of a successful run, and the claims -/

lemma specAcceptRow_some (i j : Nat) (l : String) (r : FundRecord)
    (h : specAcceptRow i j l = some r) : r.id ≠ "" ∧ r.name ≠ "" := by
  rcases hcs : csvNext l with e | row
  · simp only [specAcceptRow, hcs] at h
    exact absurd h (by simp)
  · simp only [specAcceptRow, hcs] at h
    by_cases h1 : row.length > max i j
    · rw [if_pos h1] at h
      by_cases h2 : pyStrip (row.getD i "") ≠ "" ∧ pyStrip (row.getD j "") ≠ ""
      · rw [if_pos h2] at h
        cases h
        exact h2
      · rw [if_neg h2] at h; exact absurd h (by simp)
    · rw [if_neg h1] at h; exact absurd h (by simp)

lemma generate_written_eq (lines : List String)
    (hwf : ∀ l ∈ lines, wfLineChars l.data = true)
    (hsz : ∀ l ∈ lines, l.data.length ≤ fieldSizeLimit)
    (hlen : ¬ lines.length < 3) (i j : Nat)
    (hi : headerIndex (pySplitComma (pyStrip (lines.getD 2 ""))) requiredIdHeader = some i)
    (hj : headerIndex (pySplitComma (pyStrip (lines.getD 2 ""))) requiredNameHeader = some j) :
    generate_fund_list lines = .written ((lines.drop 3).filterMap (specAcceptRow i j)) := by
  have hproc := processLines_eq_filterMap i j (lines.drop 3)
    (fun l hl => csvNext_ok l (hwf l (List.mem_of_mem_drop hl))
      (hsz l (List.mem_of_mem_drop hl)))
  rw [generate_fund_list, if_neg hlen]
  simp only [hi, hj, hproc]

lemma two_le_count_filterMap (f : String → Option FundRecord) (xs : List String)
    (p q : Nat) (hpq : p < q) (lp lq : String)
    (hp : xs[p]? = some lp) (hq : xs[q]? = some lq) (r : FundRecord)
    (h1 : f lp = some r) (h2 : f lq = some r) :
    2 ≤ (xs.filterMap f).count r := by
  have hsplit : xs = xs.take q ++ xs.drop q := (List.take_append_drop q xs).symm
  have hc : (xs.filterMap f).count r
      = ((xs.take q).filterMap f).count r + ((xs.drop q).filterMap f).count r := by
    conv_lhs => rw [hsplit]
    rw [List.filterMap_append, List.count_append]
  have hmem1 : r ∈ (xs.take q).filterMap f := by
    have hget : (xs.take q)[p]? = some lp := by
      rw [List.getElem?_take]
      simp [hpq, hp]
    exact List.mem_filterMap.mpr ⟨lp, List.getElem?_mem hget, h1⟩
  have hmem2 : r ∈ (xs.drop q).filterMap f := by
    have hget : (xs.drop q)[0]? = some lq := by
      rw [List.getElem?_drop]
      simpa using hq
    exact List.mem_filterMap.mpr ⟨lq, List.getElem?_mem hget, h2⟩
  have g1 := List.one_le_count_iff.mpr hmem1
  have g2 := List.one_le_count_iff.mpr hmem2
  omega


/-! ### The field-size limit is reachable: oversized inputs crash the run -/

lemma csvLoop_overflow : ∀ (m : Nat) (field : List Char) (fields : List String) (rest : List Char),
    field.length ≤ fieldSizeLimit → fieldSizeLimit < field.length + m →
    csvLoop (List.replicate m 'x' ++ rest) .inField field fields = .error () := by
  intro m
  induction m with
  | zero =>
    intro field fields rest h1 h2
    exact absurd h2 (by omega)
  | succ m ih =>
    intro field fields rest h1 h2
    rw [List.replicate_succ, List.cons_append]
    by_cases hL : field.length ≥ fieldSizeLimit
    · rw [csvLoop.eq_3, if_neg (by decide), if_neg (by decide), if_pos hL]
    · rw [csvLoop.eq_3, if_neg (by decide), if_neg (by decide), if_neg hL]
      exact ih ('x' :: field) fields rest (by simp; omega) (by simp; omega)

lemma csvNext_bigLine : csvNext bigLine = .error () := by
  have hpos : 0 < fieldSizeLimit := by decide
  have hg : ¬ ([] : List Char).length ≥ fieldSizeLimit := by simp; omega
  have hdata : bigLine.data = 'x' :: (List.replicate fieldSizeLimit 'x' ++ ['\n']) := rfl
  rw [csvNext.eq_def]
  split
  · next heq =>
    rw [hdata] at heq
    exact absurd heq (by simp)
  · next c cs heq =>
    rw [hdata] at heq
    injection heq with h1 h2
    subst h1
    subst h2
    rw [if_neg (by decide)]
    rw [csvLoop.eq_2, if_neg (by decide), if_neg (by decide), if_neg (by decide), if_neg hg]
    have hone : (['x'] : List Char).length = 1 := rfl
    exact csvLoop_overflow fieldSizeLimit ['x'] [] ['\n'] (by omega) (by omega)

lemma translate_id : ∀ cs : List Char, (∀ c ∈ cs, c ≠ '\r') → translateNewlines cs = cs := by
  intro cs
  induction cs using translateNewlines.induct with
  | case1 => intro _; rfl
  | case2 rest ih => intro h; exact absurd rfl (h '\r' (by simp))
  | case3 rest hne ih => intro h; exact absurd rfl (h '\r' (by simp))
  | case4 c rest h1 h2 ih =>
    intro h
    rw [translateNewlines.eq_4 c rest h1 h2, ih (fun d hd => h d (by simp [hd]))]

lemma splitLines_append_nl : ∀ (l : List Char), '\n' ∉ l → ∀ (rest acc : List Char),
    splitLinesKeepEnds ((l ++ ['\n']) ++ rest) acc
      = (acc.reverse ++ l ++ ['\n']) :: splitLinesKeepEnds rest [] := by
  intro l
  induction l with
  | nil =>
    intro _ rest acc
    simp [splitLinesKeepEnds]
  | cons c l ih =>
    intro hnl rest acc
    have hc : c ≠ '\n' := by intro h; exact hnl (by simp [h])
    have hnl' : '\n' ∉ l := fun h => hnl (by simp [h])
    rw [show ((c :: l) ++ ['\n']) ++ rest = c :: ((l ++ ['\n']) ++ rest) by simp]
    rw [splitLinesKeepEnds, if_neg hc]
    rw [ih hnl' rest (c :: acc)]
    simp


lemma splitLines_last (l : List Char) (hnl : '\n' ∉ l) :
    ∀ acc : List Char, splitLinesKeepEnds (l ++ ['\n']) acc = [acc.reverse ++ l ++ ['\n']] := by
  induction l with
  | nil =>
    intro acc
    simp [splitLinesKeepEnds]
  | cons c l ih =>
    intro acc
    have hc : c ≠ '\n' := by intro h; exact hnl (by simp [h])
    have hnl' : '\n' ∉ l := fun h => hnl (by simp [h])
    rw [show (c :: l) ++ ['\n'] = c :: (l ++ ['\n']) by simp]
    rw [splitLinesKeepEnds, if_neg hc]
    rw [ih hnl' (c :: acc)]
    simp

lemma hnl_bigFieldChars : '\n' ∉ bigFieldChars := by
  intro h
  have := List.eq_of_mem_replicate h
  exact absurd this (by decide)

lemma pyReadLines_bigA :
    pyReadLines bigContentA = ["m\n", "m\n", "基金碼,基金全稱\n", bigLine] := by
  have hnocr : ∀ c ∈ bigContentA.data, c ≠ '\r' := by
    have hpre : ∀ c ∈ "m\nm\n基金碼,基金全稱\n".data, c ≠ '\r' := by decide
    intro c hc
    rcases List.mem_append.mp hc with h1 | h2
    · exact hpre c h1
    · rcases List.mem_append.mp h2 with h3 | h4
      · rw [List.eq_of_mem_replicate h3]; decide
      · simp at h4; rw [h4]; decide
  have harg : bigContentA.data
      = (['m'] ++ ['\n']) ++ ((['m'] ++ ['\n'])
        ++ (("基金碼,基金全稱".data ++ ['\n']) ++ (bigFieldChars ++ ['\n']))) := rfl
  rw [pyReadLines, translate_id _ hnocr, harg]
  rw [splitLines_append_nl ['m'] (by decide), splitLines_append_nl ['m'] (by decide),
    splitLines_append_nl _ (by decide), splitLines_last _ hnl_bigFieldChars]
  rfl

lemma pyReadLines_bigB :
    pyReadLines bigContentB = ["m\n", "m\n", "基金碼,基金全稱\n", "A,N\n", "A,N\n", bigLine] := by
  have hnocr : ∀ c ∈ bigContentB.data, c ≠ '\r' := by
    have hpre : ∀ c ∈ "m\nm\n基金碼,基金全稱\nA,N\nA,N\n".data, c ≠ '\r' := by decide
    intro c hc
    rcases List.mem_append.mp hc with h1 | h2
    · exact hpre c h1
    · rcases List.mem_append.mp h2 with h3 | h4
      · rw [List.eq_of_mem_replicate h3]; decide
      · simp at h4; rw [h4]; decide
  have harg : bigContentB.data
      = (['m'] ++ ['\n']) ++ ((['m'] ++ ['\n'])
        ++ (("基金碼,基金全稱".data ++ ['\n'])
          ++ ((['A', ','] ++ ['N'] ++ ['\n']) ++ ((['A', ','] ++ ['N'] ++ ['\n'])
            ++ (bigFieldChars ++ ['\n']))))) := rfl
  rw [pyReadLines, translate_id _ hnocr, harg]
  rw [splitLines_append_nl ['m'] (by decide), splitLines_append_nl ['m'] (by decide),
    splitLines_append_nl _ (by decide)]
  rw [show (['A', ','] ++ ['N'] ++ ['\n']) = (['A', ',', 'N'] ++ ['\n']) from rfl,
    splitLines_append_nl ['A', ',', 'N'] (by decide),
    splitLines_append_nl ['A', ',', 'N'] (by decide),
    splitLines_last _ hnl_bigFieldChars]
  rfl

lemma processLines_bigLine : ∀ (i j : Nat), processLines i j [bigLine] = .error () := by
  intro i j
  rw [processLines.eq_def]
  split
  · next heq => exact absurd heq (by simp)
  · next line rest heq =>
    injection heq with h1 h2
    subst h1
    subst h2
    rw [csvNext_bigLine]

lemma processLines_cons_err (line : String) (row : List String) (i j : Nat) (rest : List String)
    (h : csvNext line = .ok row) (herr : processLines i j rest = .error ()) :
    processLines i j (line :: rest) = .error () := by
  rw [processLines.eq_def]
  split
  · next heq => exact absurd heq (by simp)
  · next l r heq =>
    injection heq with h1 h2
    subst h1
    subst h2
    rw [h, herr]

lemma generate_fatal (lines : List String) (i j : Nat)
    (hlen : ¬ lines.length < 3)
    (hi : headerIndex (pySplitComma (pyStrip (lines.getD 2 ""))) requiredIdHeader = some i)
    (hj : headerIndex (pySplitComma (pyStrip (lines.getD 2 ""))) requiredNameHeader = some j)
    (herr : processLines i j (lines.drop 3) = .error ()) :
    generate_fund_list lines = .fatalCsv := by
  rw [generate_fund_list, if_neg hlen]
  simp only [hi, hj, herr]

lemma generate_bigA : generate_fund_list (pyReadLines bigContentA) = .fatalCsv := by
  rw [pyReadLines_bigA]
  refine generate_fatal _ 0 1 (by simp) ?_ ?_ ?_
  · rw [show (["m\n", "m\n", "基金碼,基金全稱\n", bigLine] : List String).getD 2 ""
        = "基金碼,基金全稱\n" from rfl]
    decide
  · rw [show (["m\n", "m\n", "基金碼,基金全稱\n", bigLine] : List String).getD 2 ""
        = "基金碼,基金全稱\n" from rfl]
    decide
  · rw [show (["m\n", "m\n", "基金碼,基金全稱\n", bigLine] : List String).drop 3
        = [bigLine] from rfl]
    exact processLines_bigLine 0 1

lemma generate_bigB : generate_fund_list (pyReadLines bigContentB) = .fatalCsv := by
  rw [pyReadLines_bigB]
  refine generate_fatal _ 0 1 (by simp) ?_ ?_ ?_
  · rw [show (["m\n", "m\n", "基金碼,基金全稱\n", "A,N\n", "A,N\n", bigLine] : List String).getD 2 ""
        = "基金碼,基金全稱\n" from rfl]
    decide
  · rw [show (["m\n", "m\n", "基金碼,基金全稱\n", "A,N\n", "A,N\n", bigLine] : List String).getD 2 ""
        = "基金碼,基金全稱\n" from rfl]
    decide
  · rw [show (["m\n", "m\n", "基金碼,基金全稱\n", "A,N\n", "A,N\n", bigLine] : List String).drop 3
        = ["A,N\n", "A,N\n", bigLine] from rfl]
    exact processLines_cons_err "A,N\n" ["A", "N"] 0 1 ["A,N\n", bigLine] rfl
      (processLines_cons_err "A,N\n" ["A", "N"] 0 1 [bigLine] rfl (processLines_bigLine 0 1))


theorem claim_C1_counterexample :
    ¬ (pyReadLines bigContentA).length < 3
    ∧ headerIndex (pySplitComma (pyStrip ((pyReadLines bigContentA).getD 2 "")))
        requiredIdHeader = some 0
    ∧ headerIndex (pySplitComma (pyStrip ((pyReadLines bigContentA).getD 2 "")))
        requiredNameHeader = some 1
    ∧ generate_fund_list (pyReadLines bigContentA) = .fatalCsv
    ∧ ∀ funds : List FundRecord,
        generate_fund_list (pyReadLines bigContentA) ≠ .written funds := by
  refine ⟨?_, ?_, ?_, generate_bigA, ?_⟩
  · rw [pyReadLines_bigA]; simp
  · rw [pyReadLines_bigA,
      show (["m\n", "m\n", "基金碼,基金全稱\n", bigLine] : List String).getD 2 ""
        = "基金碼,基金全稱\n" from rfl]
    decide
  · rw [pyReadLines_bigA,
      show (["m\n", "m\n", "基金碼,基金全稱\n", bigLine] : List String).getD 2 ""
        = "基金碼,基金全稱\n" from rfl]
    decide
  · intro funds h
    rw [generate_bigA] at h
    exact absurd h (by simp)

theorem claim_C9_counterexample :
    ¬ (pyReadLines bigContentB).length < 3
    ∧ headerIndex (pySplitComma (pyStrip ((pyReadLines bigContentB).getD 2 "")))
        requiredIdHeader = some 0
    ∧ headerIndex (pySplitComma (pyStrip ((pyReadLines bigContentB).getD 2 "")))
        requiredNameHeader = some 1
    ∧ (0 : Nat) < 1
    ∧ ((pyReadLines bigContentB).drop 3)[0]? = some "A,N\n"
    ∧ ((pyReadLines bigContentB).drop 3)[1]? = some "A,N\n"
    ∧ specAcceptRow 0 1 "A,N\n" = some { id := "A", name := "N" }
    ∧ generate_fund_list (pyReadLines bigContentB) = .fatalCsv
    ∧ ∀ funds : List FundRecord,
        generate_fund_list (pyReadLines bigContentB) ≠ .written funds := by
  have hgd : (["m\n", "m\n", "基金碼,基金全稱\n", "A,N\n", "A,N\n", bigLine] : List String).getD 2 ""
      = "基金碼,基金全稱\n" := rfl
  have hdrop : (["m\n", "m\n", "基金碼,基金全稱\n", "A,N\n", "A,N\n", bigLine] : List String).drop 3
      = ["A,N\n", "A,N\n", bigLine] := rfl
  refine ⟨?_, ?_, ?_, by decide, ?_, ?_, by decide, generate_bigB, ?_⟩
  · rw [pyReadLines_bigB]; simp
  · rw [pyReadLines_bigB, hgd]; decide
  · rw [pyReadLines_bigB, hgd]; decide
  · rw [pyReadLines_bigB, hdrop]; rfl
  · rw [pyReadLines_bigB, hdrop]; rfl
  · intro funds h
    rw [generate_bigB] at h
    exact absurd h (by simp)

theorem claim_C10_counterexample :
    bigLine ∈ pyReadLines bigContentA
    ∧ csvNext bigLine = .error ()
    ∧ ∀ row : List String, csvNext bigLine ≠ .ok row := by
  refine ⟨?_, csvNext_bigLine, ?_⟩
  · rw [pyReadLines_bigA]; simp
  · intro row h
    rw [csvNext_bigLine] at h
    exact absurd h (by simp)


/-- C1 (amended): for a file whose header line resolves both required columns
and none of whose lines exceeds the csv field-size limit of 131072
characters, a data row contributes a record iff it has enough fields to cover
both indices and both stripped values are non-empty; accepted records appear
in input order with both fields stripped, and every emitted record has
non-empty fields.  (Without the field-size bound the run can abort with an
uncaught `_csv.Error` and write nothing: see the counterexample.) -/
theorem claim_C1 (content : String) (i j : Nat)
    (hsz : ∀ l ∈ pyReadLines content, l.data.length ≤ fieldSizeLimit)
    (hlen : ¬ (pyReadLines content).length < 3)
    (hi : headerIndex (pySplitComma (pyStrip ((pyReadLines content).getD 2 "")))
        requiredIdHeader = some i)
    (hj : headerIndex (pySplitComma (pyStrip ((pyReadLines content).getD 2 "")))
        requiredNameHeader = some j) :
    generate_fund_list (pyReadLines content)
      = .written (((pyReadLines content).drop 3).filterMap (specAcceptRow i j))
    ∧ ∀ r ∈ ((pyReadLines content).drop 3).filterMap (specAcceptRow i j),
        r.id ≠ "" ∧ r.name ≠ "" := by
  constructor
  · exact generate_written_eq _ (pyReadLines_wf content) hsz hlen i j hi hj
  · intro r hr
    obtain ⟨l, -, hl⟩ := List.mem_filterMap.mp hr
    exact specAcceptRow_some i j l r hl

theorem claim_C1_witness :
    generate_fund_list (pyReadLines "m1\nm2\n基金碼,基金全稱\n001,Alpha\n")
      = .written (((pyReadLines "m1\nm2\n基金碼,基金全稱\n001,Alpha\n").drop 3).filterMap
          (specAcceptRow 0 1))
    ∧ ∀ r ∈ ((pyReadLines "m1\nm2\n基金碼,基金全稱\n001,Alpha\n").drop 3).filterMap
          (specAcceptRow 0 1),
        r.id ≠ "" ∧ r.name ≠ "" :=
  claim_C1 "m1\nm2\n基金碼,基金全稱\n001,Alpha\n" 0 1 (by decide) (by decide) (by decide)
    (by decide)


/-- C2: on the concrete seven-line input the extractor emits exactly the two
records `("001", "Alpha Growth Fund")` and `("003", "Beta Bond Fund")`,
dropping the rows with a missing id and a missing name. -/
theorem claim_C2 :
    generate_fund_list
        ["meta1\n", "meta2\n", "基金碼,基金全稱\n", "001,Alpha Growth Fund\n",
         ",Orphan Fund\n", "002,\n", "003,Beta Bond Fund\n"]
      = .written [{ id := "001", name := "Alpha Growth Fund" },
                  { id := "003", name := "Beta Bond Fund" }] := rfl

/-- C3: fewer than three lines gives the structural early return; a header
line lacking a required column gives the schema early return carrying the
available headers; in both cases the output file is untouched. -/
theorem claim_C3 (lines : List String) :
    (lines.length < 3 → generate_fund_list lines = .earlyTooShort)
    ∧ (¬ lines.length < 3 →
        (headerIndex (pySplitComma (pyStrip (lines.getD 2 ""))) requiredIdHeader = none
          ∨ headerIndex (pySplitComma (pyStrip (lines.getD 2 ""))) requiredNameHeader = none) →
        generate_fund_list lines
          = .earlyNoHeader (pySplitComma (pyStrip (lines.getD 2 ""))))
    ∧ (∀ fs : FileSystem, generate_fund_list lines = .earlyTooShort → runOnce fs lines = fs)
    ∧ (∀ (fs : FileSystem) (hs : List String),
        generate_fund_list lines = .earlyNoHeader hs → runOnce fs lines = fs) := by
  refine ⟨?_, ?_, ?_, ?_⟩
  · intro h
    rw [generate_fund_list, if_pos h]
  · intro h hmiss
    rw [generate_fund_list, if_neg h]
    rcases hk : headerIndex (pySplitComma (pyStrip (lines.getD 2 ""))) requiredIdHeader with _ | k
    · rcases hm : headerIndex (pySplitComma (pyStrip (lines.getD 2 ""))) requiredNameHeader with _ | m <;>
        (simp only [hk, hm]; try rfl)
    · rcases hm : headerIndex (pySplitComma (pyStrip (lines.getD 2 ""))) requiredNameHeader with _ | m
      · simp only [hk, hm]
        try rfl
      · exfalso
        rcases hmiss with h1 | h1
        · rw [hk] at h1; exact absurd h1 (by simp)
        · rw [hm] at h1; exact absurd h1 (by simp)
  · intro fs h
    rw [runOnce, h]
  · intro fs hs h
    rw [runOnce, h]

theorem claim_C3_witness :
    generate_fund_list ["only\n"] = .earlyTooShort
    ∧ generate_fund_list ["m\n", "m\n", "a,基金全稱\n", "x,y\n"] = .earlyNoHeader ["a", "基金全稱"]
    ∧ runOnce ⟨false, none⟩ ["only\n"] = ⟨false, none⟩ :=
  ⟨(claim_C3 ["only\n"]).1 (by decide),
   (claim_C3 ["m\n", "m\n", "a,基金全稱\n", "x,y\n"]).2.1 (by decide) (Or.inl (by decide)),
   (claim_C3 ["only\n"]).2.2.1 ⟨false, none⟩ ((claim_C3 ["only\n"]).1 (by decide))⟩


/-- C4: the file is first decoded as UTF-8 with an optional BOM stripped; the
Big5 decode runs exactly when that fails; if both fail the error propagates
and nothing is written. -/
theorem claim_C4 (utf8Decode big5Decode : List Nat → Option String)
    (fs : FileSystem) (bytes : List Nat) :
    (∀ s, utf8SigDecode utf8Decode bytes = some s →
        runOnBytes utf8Decode big5Decode fs bytes = some (runOnce fs (pyReadLines s)))
    ∧ (utf8SigDecode utf8Decode bytes = none →
        ∀ s, big5Decode bytes = some s →
          runOnBytes utf8Decode big5Decode fs bytes = some (runOnce fs (pyReadLines s)))
    ∧ (utf8SigDecode utf8Decode bytes = none → big5Decode bytes = none →
        runOnBytes utf8Decode big5Decode fs bytes = none)
    ∧ (∀ rest, utf8SigDecode utf8Decode (0xEF :: 0xBB :: 0xBF :: rest) = utf8Decode rest) := by
  refine ⟨?_, ?_, ?_, ?_⟩
  · intro s hs
    rw [runOnBytes, hs]
  · intro hu s hs
    rw [runOnBytes, hu, hs]
  · intro hu hb
    rw [runOnBytes, hu, hb]
  · intro rest
    rfl

theorem claim_C4_witness :
    runOnBytes (fun _ => some "a\nb\nc\n") (fun _ => none) ⟨false, none⟩ []
        = some (runOnce ⟨false, none⟩ (pyReadLines "a\nb\nc\n"))
    ∧ runOnBytes (fun _ => none) (fun _ => some "x\n") ⟨false, none⟩ []
        = some (runOnce ⟨false, none⟩ (pyReadLines "x\n"))
    ∧ runOnBytes (fun _ => none) (fun _ => none) ⟨false, none⟩ [] = none :=
  ⟨(claim_C4 (fun _ => some "a\nb\nc\n") (fun _ => none) ⟨false, none⟩ []).1 "a\nb\nc\n" rfl,
   (claim_C4 (fun _ => none) (fun _ => some "x\n") ⟨false, none⟩ []).2.1 rfl "x\n" rfl,
   (claim_C4 (fun _ => none) (fun _ => none) ⟨false, none⟩ []).2.2.1 rfl rfl⟩

/-- C5: the header is split on literal commas with no quote awareness (a
quoted comma splits the header cell, so a quoted header does not resolve),
data lines are parsed with CSV-quote-aware splitting (embedded commas and
doubled quotes stay inside the field), and a data row is accepted only if its
field count exceeds the larger resolved index. -/
theorem claim_C5 :
    (∀ (i j : Nat) (line : String) (row : List String) (rest : List String),
        csvNext line = .ok row → row.length ≤ max i j →
        processLines i j (line :: rest) = processLines i j rest)
    ∧ pySplitComma "\"基金碼,基金全稱\"" = ["\"基金碼", "基金全稱\""]
    ∧ generate_fund_list ["m\n", "m\n", "\"基金碼,基金全稱\"\n", "001,X\n"]
        = .earlyNoHeader ["\"基金碼", "基金全稱\""]
    ∧ csvNext "\"a,b\",c\n" = .ok ["a,b", "c"]
    ∧ csvNext "\"a\"\"b\",c\n" = .ok ["a\"b", "c"] := by
  refine ⟨?_, rfl, rfl, rfl, rfl⟩
  intro i j line row rest hrow hle
  rcases hrest : processLines i j rest with e | tail
  · simp only [processLines, hrow, hrest]
  · simp only [processLines, hrow, hrest,
      if_neg (show ¬ row.length > max i j by omega)]

theorem claim_C5_witness :
    csvNext "a\n" = .ok ["a"] ∧ 1 ≤ max 0 1
    ∧ processLines 0 1 ["a\n"] = processLines 0 1 [] :=
  ⟨rfl, by decide, (claim_C5).1 0 1 "a\n" ["a"] [] rfl (by decide)⟩

/-- C6: the output is the JSON array of objects with exactly the keys `id`
and `name`, UTF-8 text with non-ASCII characters unescaped and a 2-space
indent; the output directory is created and the file content after a write is
the serialization alone, whatever filesystem state came before. -/
theorem claim_C6 :
    (∀ (fs : FileSystem) (funds : List FundRecord),
        writeJson fs funds
          = { outDirExists := true, outFileContent := some (serializeFunds funds) })
    ∧ serializeFunds [{ id := "001", name := "基金 A" }]
        = "[\n  \x7b\n    \"id\": \"001\",\n    \"name\": \"基金 A\"\n  \x7d\n]"
    ∧ serializeFunds [] = "[]" := by
  exact ⟨fun fs funds => rfl, rfl, rfl⟩

/-- C7: parsing the JSON written by a successful run recovers exactly the
list of accepted records, and running the script twice on the same lines
leaves the filesystem byte-identical to a single run. -/
theorem claim_C7 :
    (∀ funds : List FundRecord, parseFunds (serializeFunds funds) = some funds)
    ∧ (∀ (fs : FileSystem) (lines : List String),
        runOnce (runOnce fs lines) lines = runOnce fs lines) := by
  constructor
  · exact parseFunds_serializeFunds
  · intro fs lines
    rw [runOnce, runOnce]
    rcases generate_fund_list lines with _ | _ | hs | funds <;> rfl


/-- C8: `list.index` resolution is leftmost: when `headerIndex` (the
resolver `generate_fund_list` applies to the split header) returns `i`, the
element at `i` is the requested name and every earlier position differs. -/
theorem claim_C8 (headers : List String) (name : String) (i : Nat)
    (h : headerIndex headers name = some i) :
    i < headers.length ∧ headers.getD i "" = name
      ∧ ∀ j < i, headers.getD j "" ≠ name := by
  obtain ⟨hlt, hfi⟩ := List.findIdx?_eq_some_iff_findIdx_eq.mp h
  obtain ⟨hp, hprev⟩ := (List.findIdx_eq hlt).mp hfi
  refine ⟨hlt, ?_, ?_⟩
  · rw [List.getD_eq_getElem?_getD, List.getElem?_eq_getElem hlt]
    simpa using hp
  · intro j hj
    have hjlt : j < headers.length := lt_trans hj hlt
    have := hprev j hj
    rw [List.getD_eq_getElem?_getD, List.getElem?_eq_getElem hjlt]
    simpa using this

theorem claim_C8_witness :
    headerIndex ["基金碼", "基金碼", "基金全稱"] "基金碼" = some 0
    ∧ (0 : Nat) < 3 ∧ ["基金碼", "基金碼", "基金全稱"].getD 0 "" = "基金碼"
    ∧ generate_fund_list ["m\n", "m\n", "基金碼,基金碼,基金全稱\n", "A,B,N\n"]
        = .written [{ id := "A", name := "N" }] := by
  refine ⟨rfl, ?_, ?_, rfl⟩
  · exact (claim_C8 ["基金碼", "基金碼", "基金全稱"] "基金碼" 0 rfl).1
  · exact (claim_C8 ["基金碼", "基金碼", "基金全稱"] "基金碼" 0 rfl).2.1

/-- C9 (amended): no deduplication: on an input none of whose lines exceeds
the csv field-size limit, if two distinct data-row positions are both
accepted with the same record value, the output counts that record at least
twice.  (Without the field-size bound another data line can make the run
abort with an uncaught `_csv.Error`: see the counterexample.) -/
theorem claim_C9 (content : String) (i j : Nat)
    (hsz : ∀ l ∈ pyReadLines content, l.data.length ≤ fieldSizeLimit)
    (hlen : ¬ (pyReadLines content).length < 3)
    (hi : headerIndex (pySplitComma (pyStrip ((pyReadLines content).getD 2 "")))
        requiredIdHeader = some i)
    (hj : headerIndex (pySplitComma (pyStrip ((pyReadLines content).getD 2 "")))
        requiredNameHeader = some j)
    (p q : Nat) (hpq : p < q) (lp lq : String)
    (hp : ((pyReadLines content).drop 3)[p]? = some lp)
    (hq : ((pyReadLines content).drop 3)[q]? = some lq)
    (r : FundRecord)
    (hrp : specAcceptRow i j lp = some r) (hrq : specAcceptRow i j lq = some r) :
    ∃ funds, generate_fund_list (pyReadLines content) = .written funds
      ∧ 2 ≤ funds.count r := by
  refine ⟨((pyReadLines content).drop 3).filterMap (specAcceptRow i j), ?_, ?_⟩
  · exact generate_written_eq _ (pyReadLines_wf content) hsz hlen i j hi hj
  · exact two_le_count_filterMap _ _ p q hpq lp lq hp hq r hrp hrq

theorem claim_C9_witness :
    ∃ funds,
      generate_fund_list (pyReadLines "m\nm\n基金碼,基金全稱\nA,N\nA,N\n") = .written funds
      ∧ 2 ≤ funds.count { id := "A", name := "N" } :=
  claim_C9 "m\nm\n基金碼,基金全稱\nA,N\nA,N\n" 0 1 (by decide) (by decide) (by decide)
    (by decide) 0 1 (by decide) "A,N\n" "A,N\n" (by decide) (by decide)
    { id := "A", name := "N" } (by decide) (by decide)

/-- C10 (amended): `next(csv.reader([line]))` succeeds on every line
`readlines` produces that stays within the csv field-size limit (in
particular any line of at most 131072 characters), and a line that is just a
newline parses to the empty record and contributes nothing.  (A longer line
can overflow the limit and raise `_csv.Error`: see the counterexample.) -/
theorem claim_C10 (content : String) (line : String) (h : line ∈ pyReadLines content) :
    (line.data.length ≤ fieldSizeLimit → ∃ row, csvNext line = .ok row)
    ∧ (line = "\n" → csvNext line = .ok []
        ∧ ∀ (i j : Nat) (rest : List String),
            processLines i j (line :: rest) = processLines i j rest) := by
  constructor
  · exact fun hsz => csvNext_ok line (pyReadLines_wf content line h) hsz
  · intro hl
    subst hl
    refine ⟨rfl, ?_⟩
    intro i j rest
    rcases hrest : processLines i j rest with e | tail
    · simp only [processLines, hrest]
      rfl
    · simp only [processLines, hrest]
      rfl

theorem claim_C10_witness :
    "\n" ∈ pyReadLines "a\n\n"
    ∧ (∃ row, csvNext "\n" = .ok row)
    ∧ processLines 0 1 ["\n"] = processLines 0 1 [] :=
  ⟨by decide,
   (claim_C10 "a\n\n" "\n" (by decide)).1 (by decide),
   ((claim_C10 "a\n\n" "\n" (by decide)).2 rfl).2 0 1 []⟩


end FundList
